import Mathlib

/-!
Shallow embedding of the dispatch-and-wait workflow correlator
(`src/github.py`, `src/main.py`, `src/util.py`).

The Python code drives a poll loop against a remote provider.  Here every
remote interaction is supplied as explicit data: a `Poll` records what one
iteration of the search loop observed (the clock value at the `while` check,
the listing response, and the jobs returned for each run id), a `WaitTick`
records one iteration of the wait loop, and the orchestrator `runMain` is a
pure function of those traces.  Machine floats used for timestamps carry no
arithmetic beyond comparison and addition in the code, so time is embedded
as `Int`.
-/

/-- CheckStatus literal type from `src/github.py` lines 8-18. -/
inductive CheckStatus
  | completed
  | expected
  | failure
  | in_progress
  | pending
  | queued
  | requested
  | startup_failure
  | waiting
deriving DecidableEq, Repr

/-- CheckConclusion literal type from `src/github.py` lines 21-30. -/
inductive CheckConclusion
  | action_required
  | cancelled
  | failure
  | neutral
  | skipped
  | stale
  | success
  | timed_out
deriving DecidableEq, Repr

/-- The string of each CheckStatus literal, as it appears in the API and in
Python string formatting. -/
def CheckStatus.toStr : CheckStatus → String
  | .completed => "completed"
  | .expected => "expected"
  | .failure => "failure"
  | .in_progress => "in_progress"
  | .pending => "pending"
  | .queued => "queued"
  | .requested => "requested"
  | .startup_failure => "startup_failure"
  | .waiting => "waiting"

/-- The string of each CheckConclusion literal. -/
def CheckConclusion.toStr : CheckConclusion → String
  | .action_required => "action_required"
  | .cancelled => "cancelled"
  | .failure => "failure"
  | .neutral => "neutral"
  | .skipped => "skipped"
  | .stale => "stale"
  | .success => "success"
  | .timed_out => "timed_out"

/-- Python `str(x)` on an optional conclusion: `None` prints as "None",
a present literal prints as its string. -/
def pyStrConclusion : Option CheckConclusion → String
  | none => "None"
  | some c => c.toStr

/-- The "good" conclusions `["success", "neutral", "skipped"]` that the
`is_failed` / `is_successful` predicates test against. -/
def goodConclusions : List CheckConclusion :=
  [.success, .neutral, .skipped]

/-- WorkflowRunStep model (`src/github.py` lines 33-39). -/
structure WorkflowRunStep where
  name : String
  status : CheckStatus
  conclusion : Option CheckConclusion
deriving DecidableEq, Repr

/-- `WorkflowRunStep.is_failed`: Python
`self.conclusion and self.conclusion not in ["success", "neutral", "skipped"]`.
A `None` conclusion is falsy, and every conclusion literal is a nonempty
(hence truthy) string. -/
def WorkflowRunStep.is_failed (s : WorkflowRunStep) : Bool :=
  s.conclusion.isSome && !(match s.conclusion with
    | some c => goodConclusions.contains c
    | none => false)

/-- WorkflowRunJob model (`src/github.py` lines 42-49). -/
structure WorkflowRunJob where
  name : String
  status : CheckStatus
  conclusion : Option CheckConclusion
  steps : List WorkflowRunStep
deriving DecidableEq, Repr

/-- `WorkflowRunJob.is_failed`, same truthiness test as the step's. -/
def WorkflowRunJob.is_failed (j : WorkflowRunJob) : Bool :=
  j.conclusion.isSome && !(match j.conclusion with
    | some c => goodConclusions.contains c
    | none => false)

/-- WorkflowRun model (`src/github.py` lines 52-62). -/
structure WorkflowRun where
  id : Int
  status : CheckStatus
  conclusion : Option CheckConclusion
  html_url : String
deriving DecidableEq, Repr

/-- `WorkflowRun.is_finished`: `self.conclusion is not None`. -/
def WorkflowRun.is_finished (r : WorkflowRun) : Bool :=
  r.conclusion.isSome

/-- `WorkflowRun.is_successful`:
`self.conclusion in ["success", "neutral", "skipped"]` (a `None` conclusion
is not in the list). -/
def WorkflowRun.is_successful (r : WorkflowRun) : Bool :=
  match r.conclusion with
  | some c => goodConclusions.contains c
  | none => false

/-!
Dispatch-input construction (`src/main.py` line 25):
`adjusted_inputs = \x7b"distinct_id": distinct_id, **self.workflow_inputs\x7d`.
A Python dict literal is built left to right: setting an existing key
replaces its value in place, a new key is appended.  The caller's
`workflow_inputs` is unpacked after the `"distinct_id"` entry, so the
caller's bindings are set last.  Dicts are embedded as association lists
with string values (the observable the claims use is key lookup).
-/

/-- Python dict key lookup `m.get(k)` on the association-list embedding:
the value of the first binding of `k`, when one exists. -/
def dictGet (k : String) : List (String × String) → Option String
  | [] => none
  | p :: rest => if p.1 = k then some p.2 else dictGet k rest

/-- One Python dict item assignment `m[k] = v`: replace the value of an
existing key in place, otherwise append the new binding. -/
def dictSet (m : List (String × String)) (k v : String) : List (String × String) :=
  if m.any (fun p => p.1 = k) then
    m.map (fun p => if p.1 = k then (k, v) else p)
  else m ++ [(k, v)]

/-- The dict literal of `DispatchContext.dispatch`:
start from the single binding `"distinct_id" ↦ distinct_id`, then set each
binding of the caller's map in order. -/
def adjusted_inputs (distinct_id : String)
    (workflow_inputs : List (String × String)) : List (String × String) :=
  workflow_inputs.foldl (fun m p => dictSet m p.1 p.2) [("distinct_id", distinct_id)]

theorem dictGet_eq_none_of_no_key (a : String) :
    ∀ m : List (String × String),
      m.any (fun p => p.1 = a) = false → dictGet a m = none := by
  intro m
  induction m with
  | nil => intro _; rfl
  | cons p rest ih =>
    intro h
    simp only [List.any_cons, Bool.or_eq_false_iff, decide_eq_false_iff_not] at h
    simp [dictGet, h.1, ih (by simpa using h.2)]

theorem dictGet_append (k : String) :
    ∀ l₁ l₂ : List (String × String),
      dictGet k (l₁ ++ l₂)
        = match dictGet k l₁ with
          | some v => some v
          | none => dictGet k l₂ := by
  intro l₁ l₂
  induction l₁ with
  | nil => rfl
  | cons p rest ih =>
    by_cases hp : p.1 = k
    · simp [dictGet, hp]
    · simp [dictGet, hp, ih]

theorem dictGet_map_set_self (a v : String) :
    ∀ m : List (String × String),
      m.any (fun p => p.1 = a) = true →
      dictGet a (m.map (fun p => if p.1 = a then (a, v) else p)) = some v := by
  intro m
  induction m with
  | nil => intro h; simp at h
  | cons p rest ih =>
    intro h
    by_cases hp : p.1 = a
    · simp [dictGet, hp]
    · simp only [List.any_cons, Bool.or_eq_true, decide_eq_true_eq] at h
      rcases h with h | h
      · exact absurd h hp
      · simp [dictGet, hp, ih (by simpa using h)]

theorem dictGet_map_set_ne (a v k : String) (hk : k ≠ a) :
    ∀ m : List (String × String),
      dictGet k (m.map (fun p => if p.1 = a then (a, v) else p))
        = dictGet k m := by
  intro m
  induction m with
  | nil => rfl
  | cons p rest ih =>
    have h3 : ¬ a = k := fun he => hk he.symm
    by_cases hp : p.1 = a
    · simp [dictGet, hp, h3, ih]
    · by_cases hb : p.1 = k
      · simp [dictGet, hp, hb, hk]
      · simp [dictGet, hp, hb, ih]

theorem dictGet_dictSet (m : List (String × String)) (a v k : String) :
    dictGet k (dictSet m a v)
      = if k = a then some v else dictGet k m := by
  unfold dictSet
  cases hany : m.any (fun p => p.1 = a) with
  | true =>
    simp only [hany, if_true]
    by_cases hk : k = a
    · subst hk; simp [dictGet_map_set_self _ _ _ hany]
    · simp [hk, dictGet_map_set_ne _ _ _ hk m]
  | false =>
    simp only [hany, Bool.false_eq_true, if_false]
    rw [dictGet_append]
    by_cases hk : k = a
    · subst hk
      rw [dictGet_eq_none_of_no_key _ _ hany]
      simp [dictGet]
    · have h3 : ¬ a = k := fun he => hk he.symm
      cases hm : dictGet k m with
      | some w => simp [hk, hm]
      | none => simp [hk, hm, dictGet, h3]

theorem dictGet_foldl_dictSet (k : String) :
    ∀ (inputs acc : List (String × String)),
      dictGet k (inputs.foldl (fun m p => dictSet m p.1 p.2) acc)
        = match dictGet k inputs.reverse with
          | some v => some v
          | none => dictGet k acc := by
  intro inputs
  induction inputs with
  | nil => intro acc; rfl
  | cons p rest ih =>
    intro acc
    simp only [List.foldl_cons, List.reverse_cons]
    rw [ih, dictGet_append, dictGet_dictSet]
    cases hr : dictGet k rest.reverse with
    | some v => rfl
    | none =>
      by_cases hk : k = p.1
      · simp [dictGet, hk]
      · have h3 : ¬ p.1 = k := fun he => hk he.symm
        simp [dictGet, hk, h3]

/-- C3 counterexample: a caller-supplied `distinct_id` key overrides the
generated marker.  With caller map `\x7b"distinct_id": "hijack"\x7d` and marker
`"11111111-2222-3333-4444-555555555555"`, the value sent under
`distinct_id` is `"hijack"`, not the marker. -/
theorem dispatch_inputs_caller_overrides_marker :
    ¬ (dictGet "distinct_id"
        (adjusted_inputs "11111111-2222-3333-4444-555555555555"
          [("distinct_id", "hijack")])
       = some "11111111-2222-3333-4444-555555555555") := by
  decide

/-- C3 (amended): the inputs sent by `dispatch` are the caller's map
augmented with `distinct_id ↦ marker` where the caller's bindings take
precedence: the lookup of any key in the sent map is its last binding in
the caller's map when one exists, and otherwise the generated marker for
the key `"distinct_id"` and absent for every other key.  In particular the
value sent under `distinct_id` equals the marker exactly when the caller's
map has no `distinct_id` binding. -/
theorem dispatch_inputs_characterization :
    ∀ (distinct_id : String) (inputs : List (String × String)) (k : String),
      dictGet k (adjusted_inputs distinct_id inputs)
        = match dictGet k inputs.reverse with
          | some v => some v
          | none =>
            if k = "distinct_id" then some distinct_id else none := by
  intro distinct_id inputs k
  unfold adjusted_inputs
  rw [dictGet_foldl_dictSet]
  cases hr : dictGet k inputs.reverse with
  | some v => rfl
  | none =>
    by_cases hk : k = "distinct_id"
    · subst hk; simp [dictGet]
    · have h3 : ¬ "distinct_id" = k := fun he => hk he.symm
      simp [dictGet, hk, h3]

/-- C4: for every run, `is_finished` holds iff the conclusion is present and
`is_successful` holds iff the conclusion is one of success, neutral, skipped;
for every job and step, `is_failed` holds iff the conclusion is present and
is not one of success, neutral, skipped. -/
theorem run_job_step_predicates :
    ∀ (r : WorkflowRun) (j : WorkflowRunJob) (s : WorkflowRunStep),
      (r.is_finished = true ↔ r.conclusion.isSome = true)
      ∧ (r.is_successful = true ↔
          ∃ c, r.conclusion = some c ∧ c ∈ goodConclusions)
      ∧ (j.is_failed = true ↔
          ∃ c, j.conclusion = some c ∧ c ∉ goodConclusions)
      ∧ (s.is_failed = true ↔
          ∃ c, s.conclusion = some c ∧ c ∉ goodConclusions) := by
  intro r j s
  refine ⟨Iff.rfl, ?_, ?_, ?_⟩
  · cases h : r.conclusion with
    | none => simp [WorkflowRun.is_successful, h]
    | some c =>
      simp only [WorkflowRun.is_successful, h]
      constructor
      · intro hc
        exact ⟨c, rfl, by simpa using hc⟩
      · rintro ⟨c', hc', hmem⟩
        cases hc'
        simpa using hmem
  · cases h : j.conclusion with
    | none => simp [WorkflowRunJob.is_failed, h]
    | some c =>
      simp only [WorkflowRunJob.is_failed, h]
      constructor
      · intro hc
        refine ⟨c, rfl, ?_⟩
        simp only [Option.isSome_some, Bool.true_and, Bool.not_eq_true'] at hc
        simpa using hc
      · rintro ⟨c', hc', hmem⟩
        cases hc'
        simp only [Option.isSome_some, Bool.true_and, Bool.not_eq_true']
        simpa using hmem
  · cases h : s.conclusion with
    | none => simp [WorkflowRunStep.is_failed, h]
    | some c =>
      simp only [WorkflowRunStep.is_failed, h]
      constructor
      · intro hc
        refine ⟨c, rfl, ?_⟩
        simp only [Option.isSome_some, Bool.true_and, Bool.not_eq_true'] at hc
        simpa using hc
      · rintro ⟨c', hc', hmem⟩
        cases hc'
        simp only [Option.isSome_some, Bool.true_and, Bool.not_eq_true']
        simpa using hmem

/-!
Correlator: `DispatchContext.find_run` (`src/main.py` lines 30-60).
Each iteration of the `while` loop is driven by one `Poll`: the value of
`time.time()` at the loop condition, the listing response, and the jobs
that `list_workflow_run_jobs` returns for each run id during that
iteration.  The loop body filters out already-checked run ids, scans each
remaining candidate's jobs and steps in order, returns on the first step
whose name contains the marker, and otherwise adds finished candidates
with a nonempty job list to the dedup set.  Running out of polls before
the clock reaches the deadline leaves the loop unmodelled (`none`); the
code itself can only exit by returning a run or raising the search-timeout
error.
-/

/-- Python `distinct_id in step.name`: substring containment, embedded as
infix containment on the character lists. -/
def containsSub (marker name : String) : Bool :=
  decide (marker.data <:+: name.data)

/-- One step's name contains the marker. -/
def stepMatches (marker : String) (s : WorkflowRunStep) : Bool :=
  containsSub marker s.name

/-- Some step of some job matches the marker (the inner double `for` of
`find_run` returns iff this holds for the fetched jobs). -/
def runMatches (marker : String) (jobs : List WorkflowRunJob) : Bool :=
  jobs.any (fun j => j.steps.any (fun s => stepMatches marker s))

/-- The first matching step in job order then step order: the step on which
the inner loops of `find_run` return. -/
def firstMatchingStep (marker : String) (jobs : List WorkflowRunJob) :
    Option WorkflowRunStep :=
  jobs.findSome? (fun j => j.steps.find? (fun s => stepMatches marker s))

/-- What one iteration of the `for run in runs` loop produces: the matched
run if any, the dedup set after the loop, and the ids whose jobs were
fetched (in fetch order). -/
structure ScanResult where
  found : Option WorkflowRun
  checked : List Int
  fetched : List Int
deriving Repr

/-- The `for run in runs` loop of `find_run`: fetch the candidate's jobs,
return on a marker match, otherwise add finished candidates with a
nonempty job list to the dedup set and continue. -/
def checkRuns (marker : String) (jobsOf : Int → List WorkflowRunJob) :
    List WorkflowRun → List Int → ScanResult
  | [], checked => ⟨none, checked, []⟩
  | r :: rest, checked =>
    let jobs := jobsOf r.id
    if runMatches marker jobs then ⟨some r, checked, [r.id]⟩
    else
      let checked' :=
        if !jobs.isEmpty && r.is_finished then r.id :: checked else checked
      let res := checkRuns marker jobsOf rest checked'
      ⟨res.found, res.checked, r.id :: res.fetched⟩

/-- One iteration's observations: the clock value at the `while` check, the
listing response, and the jobs returned for each run id. -/
structure Poll where
  time : Int
  runs : List WorkflowRun
  jobsOf : Int → List WorkflowRunJob

/-- The dedup filter
`runs = [run for run in runs if run.id not in already_checked_runs]`. -/
def candidateRuns (checked : List Int) (runs : List WorkflowRun) :
    List WorkflowRun :=
  runs.filter (fun r => !checked.contains r.id)

/-- One full iteration of the `while` loop body of `find_run`. -/
def findIter (marker : String) (p : Poll) (checked : List Int) : ScanResult :=
  checkRuns marker p.jobsOf (candidateRuns checked p.runs) checked

/-- How `find_run` can exit: by returning the identified run, or by raising
the search-timeout exception. -/
inductive FindOutcome
  | found (r : WorkflowRun)
  | searchTimeout
deriving DecidableEq, Repr

/-- Trace record of one executed iteration: the dedup set at its start and
the run ids whose jobs it fetched. -/
structure IterRecord where
  checkedBefore : List Int
  fetched : List Int
deriving DecidableEq, Repr

/-- Result of the whole `while` loop: the exit (or `none` when the supplied
polls ran out before the deadline), the per-iteration trace, and the final
dedup set. -/
structure FindRes where
  outcome : Option FindOutcome
  iters : List IterRecord
  finalChecked : List Int
deriving Repr

/-- The `while time.time() < deadline` loop of `find_run`. -/
def findLoop (marker : String) (deadline : Int) :
    List Poll → List Int → FindRes
  | [], checked => ⟨none, [], checked⟩
  | p :: ps, checked =>
    if p.time < deadline then
      let s := findIter marker p checked
      match s.found with
      | some r => ⟨some (.found r), [⟨checked, s.fetched⟩], s.checked⟩
      | none =>
        let rest := findLoop marker deadline ps s.checked
        ⟨rest.outcome, ⟨checked, s.fetched⟩ :: rest.iters, rest.finalChecked⟩
    else ⟨some .searchTimeout, [], checked⟩

/-- `find_run` with `deadline = start_time + self.start_timeout_seconds` and
an initially empty dedup set. -/
def find_run (start_time start_timeout_seconds : Int) (marker : String)
    (polls : List Poll) : FindRes :=
  findLoop marker (start_time + start_timeout_seconds) polls []

/-- The ids the dedup set gains in one iteration: candidates scanned before
any match (`takeWhile` of the non-matching prefix), kept when their job
list is nonempty and they are finished. -/
def addedIds (marker : String) (jobsOf : Int → List WorkflowRunJob)
    (runs : List WorkflowRun) : List Int :=
  ((runs.takeWhile (fun r => !runMatches marker (jobsOf r.id))).filter
    (fun r => !(jobsOf r.id).isEmpty && r.is_finished)).map (fun r => r.id)

/-- Modelled from the spec's words for the refinement in C1: in each
iteration before the deadline, return the first remaining candidate, in
listing order, whose jobs contain a marker-matching step; otherwise extend
the dedup set and continue; on reaching the deadline, search-timeout. -/
def findRunSpec (marker : String) (deadline : Int) :
    List Poll → List Int → Option FindOutcome
  | [], _ => none
  | p :: ps, checked =>
    if p.time < deadline then
      let cands := candidateRuns checked p.runs
      match cands.find? (fun r => runMatches marker (p.jobsOf r.id)) with
      | some r => some (.found r)
      | none =>
        findRunSpec marker deadline ps
          ((addedIds marker p.jobsOf cands).reverse ++ checked)
    else some .searchTimeout

theorem checkRuns_found (marker : String) (jobsOf : Int → List WorkflowRunJob) :
    ∀ (runs : List WorkflowRun) (checked : List Int),
      (checkRuns marker jobsOf runs checked).found
        = runs.find? (fun r => runMatches marker (jobsOf r.id)) := by
  intro runs
  induction runs with
  | nil => intro checked; rfl
  | cons r rest ih =>
    intro checked
    unfold checkRuns
    cases hm : runMatches marker (jobsOf r.id) with
    | true => simp [List.find?_cons, hm]
    | false => simp [List.find?_cons, hm, ih]

theorem checkRuns_checked (marker : String) (jobsOf : Int → List WorkflowRunJob) :
    ∀ (runs : List WorkflowRun) (checked : List Int),
      (checkRuns marker jobsOf runs checked).checked
        = (addedIds marker jobsOf runs).reverse ++ checked := by
  intro runs
  induction runs with
  | nil => intro checked; rfl
  | cons r rest ih =>
    intro checked
    unfold checkRuns addedIds
    cases hm : runMatches marker (jobsOf r.id) with
    | true => simp [List.takeWhile_cons, hm]
    | false =>
      cases hc : (!(jobsOf r.id).isEmpty && r.is_finished) with
      | true =>
        simp only [hm, Bool.false_eq_true, if_false, hc, if_true]
        rw [ih]
        simp [addedIds, List.takeWhile_cons, hm, hc]
      | false =>
        simp only [hm, Bool.false_eq_true, if_false, hc]
        rw [ih]
        simp [addedIds, List.takeWhile_cons, hm, hc]

theorem checkRuns_fetched_sub (marker : String) (jobsOf : Int → List WorkflowRunJob) :
    ∀ (runs : List WorkflowRun) (checked : List Int) (x : Int),
      x ∈ (checkRuns marker jobsOf runs checked).fetched →
      ∃ r ∈ runs, r.id = x := by
  intro runs
  induction runs with
  | nil => intro checked x h; simp [checkRuns] at h
  | cons r rest ih =>
    intro checked x h
    unfold checkRuns at h
    cases hm : runMatches marker (jobsOf r.id) with
    | true =>
      simp only [hm, if_true] at h
      simp at h
      exact ⟨r, List.mem_cons_self r rest, h.symm⟩
    | false =>
      simp only [hm, Bool.false_eq_true, if_false, List.mem_cons] at h
      rcases h with h | h
      · exact ⟨r, List.mem_cons_self r rest, h.symm⟩
      · obtain ⟨r', hr', hx⟩ := ih _ x h
        exact ⟨r', List.mem_cons_of_mem r hr', hx⟩

theorem findIter_found (marker : String) (p : Poll) (checked : List Int) :
    (findIter marker p checked).found
      = (candidateRuns checked p.runs).find?
          (fun r => runMatches marker (p.jobsOf r.id)) := by
  unfold findIter
  exact checkRuns_found marker p.jobsOf _ checked

theorem findLoop_outcome_eq_spec (marker : String) (deadline : Int) :
    ∀ (polls : List Poll) (checked : List Int),
      (findLoop marker deadline polls checked).outcome
        = findRunSpec marker deadline polls checked := by
  intro polls
  induction polls with
  | nil => intro checked; rfl
  | cons p ps ih =>
    intro checked
    unfold findLoop findRunSpec
    by_cases ht : p.time < deadline
    · simp only [ht, if_true]
      rw [show (findIter marker p checked).found
            = (candidateRuns checked p.runs).find?
                (fun r => runMatches marker (p.jobsOf r.id))
          from findIter_found marker p checked]
      cases hf : (candidateRuns checked p.runs).find?
          (fun r => runMatches marker (p.jobsOf r.id)) with
      | some r => simp [findIter_found, hf]
      | none =>
        simp only [findIter_found, hf]
        rw [ih]
        unfold findIter
        rw [checkRuns_checked]
    · simp [ht]

/-- C1: the run `find_run` returns is the first execution in listing order,
among the candidates remaining after the dedup filter, whose jobs contain a
step whose name contains the marker as a substring; the inner loops return
on the first such step in job order then step order; and the whole loop
refines `findRunSpec`, a transcription of the spec's description, so the
chosen execution is a deterministic function of the poll trace and the
marker (the embedding is a pure function of those two). -/
theorem find_run_first_match :
    ∀ (start_time start_timeout_seconds : Int) (marker : String)
      (polls : List Poll) (p : Poll) (checked : List Int)
      (jobs : List WorkflowRunJob),
      (find_run start_time start_timeout_seconds marker polls).outcome
        = findRunSpec marker (start_time + start_timeout_seconds) polls []
      ∧ (findIter marker p checked).found
          = (candidateRuns checked p.runs).find?
              (fun r => runMatches marker (p.jobsOf r.id))
      ∧ runMatches marker jobs = (firstMatchingStep marker jobs).isSome := by
  intro st sts marker polls p checked jobs
  refine ⟨findLoop_outcome_eq_spec marker _ polls [], findIter_found marker p checked, ?_⟩
  induction jobs with
  | nil => rfl
  | cons j rest ih =>
    unfold runMatches firstMatchingStep at ih ⊢
    simp only [List.any_cons, List.findSome?_cons]
    cases hf : j.steps.find? (fun s => stepMatches marker s) with
    | some s =>
      have : j.steps.any (fun s => stepMatches marker s) = true :=
        List.any_eq_true.mpr
          ⟨s, List.mem_of_find?_eq_some hf, List.find?_some hf⟩
      simp [this, hf]
    | none =>
      have : j.steps.any (fun s => stepMatches marker s) = false := by
        have hall := List.find?_eq_none.mp hf
        simp only [List.any_eq_false]
        intro s hs
        simpa using hall s hs
      simp [this, hf, ih]

theorem findIter_checked_super (marker : String) (p : Poll) (checked : List Int) :
    ∀ x ∈ checked, x ∈ (findIter marker p checked).checked := by
  intro x hx
  unfold findIter
  rw [checkRuns_checked]
  exact List.mem_append.mpr (Or.inr hx)

theorem findIter_no_refetch (marker : String) (p : Poll) (checked : List Int)
    (x : Int) (hx : x ∈ checked) :
    x ∉ (findIter marker p checked).fetched := by
  intro hmem
  obtain ⟨r, hr, hid⟩ := checkRuns_fetched_sub marker p.jobsOf _ checked x hmem
  have h2 := (List.mem_filter.mp hr).2
  have hmemc : r.id ∈ checked := by rw [hid]; exact hx
  have hc : checked.contains r.id = true := List.elem_iff.mpr hmemc
  rw [hc] at h2
  simp at h2

theorem findLoop_iters_checked_super (marker : String) (deadline : Int) :
    ∀ (polls : List Poll) (checked : List Int) (it : IterRecord),
      it ∈ (findLoop marker deadline polls checked).iters →
      ∀ x ∈ checked, x ∈ it.checkedBefore := by
  intro polls
  induction polls with
  | nil => intro checked it hit; simp [findLoop] at hit
  | cons p ps ih =>
    intro checked it hit x hx
    unfold findLoop at hit
    by_cases ht : p.time < deadline
    · simp only [ht, if_true] at hit
      cases hf : (findIter marker p checked).found with
      | some r =>
        rw [hf] at hit
        simp only [List.mem_singleton] at hit
        rw [hit]
        exact hx
      | none =>
        rw [hf] at hit
        simp only [List.mem_cons] at hit
        rcases hit with hit | hit
        · rw [hit]; exact hx
        · exact ih _ it hit x (findIter_checked_super marker p checked x hx)
    · simp [ht] at hit

theorem findLoop_no_refetch (marker : String) (deadline : Int) :
    ∀ (polls : List Poll) (checked : List Int) (it : IterRecord),
      it ∈ (findLoop marker deadline polls checked).iters →
      ∀ x ∈ it.checkedBefore, x ∉ it.fetched := by
  intro polls
  induction polls with
  | nil => intro checked it hit; simp [findLoop] at hit
  | cons p ps ih =>
    intro checked it hit x hx
    unfold findLoop at hit
    by_cases ht : p.time < deadline
    · simp only [ht, if_true] at hit
      cases hf : (findIter marker p checked).found with
      | some r =>
        rw [hf] at hit
        simp only [List.mem_singleton] at hit
        rw [hit] at hx ⊢
        exact findIter_no_refetch marker p checked x hx
      | none =>
        rw [hf] at hit
        simp only [List.mem_cons] at hit
        rcases hit with hit | hit
        · rw [hit] at hx ⊢
          exact findIter_no_refetch marker p checked x hx
        · exact ih _ it hit x hx
    · simp [ht] at hit

theorem findLoop_iters_pairwise (marker : String) (deadline : Int) :
    ∀ (polls : List Poll) (checked : List Int),
      ((findLoop marker deadline polls checked).iters).Pairwise
        (fun a b => ∀ x, x ∈ a.checkedBefore → x ∈ b.checkedBefore) := by
  intro polls
  induction polls with
  | nil => intro checked; simp [findLoop]
  | cons p ps ih =>
    intro checked
    unfold findLoop
    by_cases ht : p.time < deadline
    · simp only [ht, if_true]
      cases hf : (findIter marker p checked).found with
      | some r => simp [hf]
      | none =>
        simp only [hf]
        refine List.Pairwise.cons ?_ (ih _)
        intro b hb x hxb
        exact findLoop_iters_checked_super marker deadline ps _ b hb x
          (findIter_checked_super marker p checked x hxb)
    · simp [ht]

/-- C2: the dedup set is governed by the loop invariant: after one
iteration the set holds exactly the ids it held before plus the ids of the
candidates of that iteration that were scanned before any match, had a
nonempty job list, and were finished (`addedIds`, whose membership is
spelled out semantically); an id in the set at an iteration's start never
has its jobs fetched in that iteration; the set only grows from one
iteration to the next; and every recorded iteration's starting set
contains the invocation's starting set. -/
theorem find_run_dedup_invariant :
    ∀ (marker : String) (deadline : Int) (polls : List Poll)
      (p : Poll) (checked : List Int) (x : Int),
      (x ∈ (findIter marker p checked).checked
        ↔ x ∈ checked ∨ x ∈ addedIds marker p.jobsOf (candidateRuns checked p.runs))
      ∧ (x ∈ addedIds marker p.jobsOf (candidateRuns checked p.runs)
        ↔ ∃ r, r ∈ (candidateRuns checked p.runs).takeWhile
              (fun r => !runMatches marker (p.jobsOf r.id))
            ∧ (p.jobsOf r.id) ≠ [] ∧ r.is_finished = true ∧ r.id = x)
      ∧ (x ∈ checked → x ∉ (findIter marker p checked).fetched)
      ∧ (∀ it ∈ (findLoop marker deadline polls checked).iters,
          ∀ y ∈ it.checkedBefore, y ∉ it.fetched)
      ∧ ((findLoop marker deadline polls checked).iters).Pairwise
          (fun a b => ∀ y, y ∈ a.checkedBefore → y ∈ b.checkedBefore) := by
  intro marker deadline polls p checked x
  refine ⟨?_, ?_, findIter_no_refetch marker p checked x,
    findLoop_no_refetch marker deadline polls checked,
    findLoop_iters_pairwise marker deadline polls checked⟩
  · unfold findIter
    rw [checkRuns_checked]
    simp only [List.mem_append, List.mem_reverse]
    exact or_comm
  · unfold addedIds
    simp only [List.mem_map, List.mem_filter, Bool.and_eq_true, Bool.not_eq_true',
      List.isEmpty_eq_false, ne_eq]
    constructor
    · rintro ⟨r, ⟨hrt, hne, hfin⟩, hid⟩
      exact ⟨r, hrt, by simpa using hne, hfin, hid⟩
    · rintro ⟨r, hrt, hne, hfin, hid⟩
      exact ⟨r, ⟨hrt, by simpa using hne, hfin⟩, hid⟩

theorem findLoop_timeout_of_no_match (marker : String) (deadline : Int) :
    ∀ (polls : List Poll) (checked : List Int),
      (∀ p ∈ polls, ∀ r ∈ p.runs, runMatches marker (p.jobsOf r.id) = false) →
      (∃ p ∈ polls, deadline ≤ p.time) →
      (findLoop marker deadline polls checked).outcome = some .searchTimeout := by
  intro polls
  induction polls with
  | nil =>
    intro checked _ hex
    obtain ⟨p, hp, _⟩ := hex
    exact absurd hp (List.not_mem_nil p)
  | cons p ps ih =>
    intro checked hno hex
    unfold findLoop
    by_cases ht : p.time < deadline
    · have hnone : (findIter marker p checked).found = none := by
        rw [findIter_found]
        apply List.find?_eq_none.mpr
        intro r hr
        have hrr : r ∈ p.runs := (List.mem_filter.mp hr).1
        simp [hno p (List.mem_cons_self p ps) r hrr]
      simp only [ht, if_true, hnone]
      apply ih
      · intro q hq r hr
        exact hno q (List.mem_cons_of_mem p hq) r hr
      · obtain ⟨q, hq, hqt⟩ := hex
        rcases List.mem_cons.mp hq with hq | hq
        · exact absurd hqt (by rw [hq]; exact not_le.mpr ht)
        · exact ⟨q, hq, hqt⟩
    · simp [ht]

theorem findLoop_timeout_reaches_deadline (marker : String) (deadline : Int) :
    ∀ (polls : List Poll) (checked : List Int),
      (findLoop marker deadline polls checked).outcome
        = some FindOutcome.searchTimeout →
      ∃ p ∈ polls, deadline ≤ p.time := by
  intro polls
  induction polls with
  | nil => intro checked h; simp [findLoop] at h
  | cons p ps ih =>
    intro checked h
    unfold findLoop at h
    by_cases ht : p.time < deadline
    · simp only [ht, if_true] at h
      cases hf : (findIter marker p checked).found with
      | some r => rw [hf] at h; simp at h
      | none =>
        rw [hf] at h
        obtain ⟨q, hq, hqt⟩ := ih _ h
        exact ⟨q, List.mem_cons_of_mem p hq, hqt⟩
    · exact ⟨p, List.mem_cons_self p ps, not_lt.mp ht⟩

/-- C8: when no listed candidate of any poll carries the marker and the
clock reaches the deadline `start_time + start_timeout_seconds`, `find_run`
exits with the search-timeout error rather than returning an execution
(termination is intrinsic: the embedding is structurally recursive over the
poll trace); conversely the search-timeout exit occurs only when some
polled clock value has reached the deadline. -/
theorem find_run_search_timeout :
    ∀ (start_time start_timeout_seconds : Int) (marker : String)
      (polls : List Poll),
      ((∀ p ∈ polls, ∀ r ∈ p.runs, runMatches marker (p.jobsOf r.id) = false) →
        (∃ p ∈ polls, start_time + start_timeout_seconds ≤ p.time) →
        (find_run start_time start_timeout_seconds marker polls).outcome
          = some FindOutcome.searchTimeout)
      ∧ ((find_run start_time start_timeout_seconds marker polls).outcome
            = some FindOutcome.searchTimeout →
          ∃ p ∈ polls, start_time + start_timeout_seconds ≤ p.time) := by
  intro st sts marker polls
  exact ⟨fun hno hex => findLoop_timeout_of_no_match marker _ polls [] hno hex,
    fun h => findLoop_timeout_reaches_deadline marker _ polls [] h⟩

/-!
Waiter: `DispatchContext.wait_for_run` (`src/main.py` lines 62-71).
Each iteration checks the clock against `deadline = time.time() +
self.run_timeout_seconds` (the entry clock value plus the run timeout),
sleeps, fetches the run by id, and returns it when the fetch succeeded and
the run is finished.  A `WaitTick` records one iteration: the clock value
at the `while` check and the fetch result (`none` for a failed call).
-/

/-- One iteration of the wait loop: the clock at the `while` check and what
`get_workflow_run` returned after the sleep. -/
structure WaitTick where
  time : Int
  fetch : Option WorkflowRun
deriving Repr

/-- How `wait_for_run` can exit: with the finished run, or by raising the
run-timeout exception. -/
inductive WaitOutcome
  | finished (r : WorkflowRun)
  | runTimeout
deriving DecidableEq, Repr

/-- Result of the wait loop: the exit (`none` when the supplied ticks ran
out before the deadline) and how many fetches were issued. -/
structure WaitRes where
  outcome : Option WaitOutcome
  calls : Nat
deriving DecidableEq, Repr

/-- The `while time.time() < deadline` loop of `wait_for_run`: the loop
state is only the position in the trace — a failed or unfinished fetch is
simply passed over (no failure counter, no backoff). -/
def waitLoop (deadline : Int) : List WaitTick → WaitRes
  | [] => ⟨none, 0⟩
  | tk :: rest =>
    if tk.time < deadline then
      match tk.fetch with
      | some r =>
        if r.is_finished then ⟨some (.finished r), 1⟩
        else
          let w := waitLoop deadline rest
          ⟨w.outcome, w.calls + 1⟩
      | none =>
        let w := waitLoop deadline rest
        ⟨w.outcome, w.calls + 1⟩
    else ⟨some .runTimeout, 0⟩

/-- `wait_for_run` with `deadline` computed from the clock at entry plus
`run_timeout_seconds`. -/
def wait_for_run (entry_time run_timeout_seconds : Int)
    (ticks : List WaitTick) : WaitRes :=
  waitLoop (entry_time + run_timeout_seconds) ticks

theorem waitLoop_finished_sound (deadline : Int) :
    ∀ (ticks : List WaitTick) (r : WorkflowRun),
      (waitLoop deadline ticks).outcome = some (.finished r) →
      ∃ tk ∈ ticks, tk.time < deadline ∧ tk.fetch = some r
        ∧ r.is_finished = true := by
  intro ticks
  induction ticks with
  | nil => intro r h; simp [waitLoop] at h
  | cons tk rest ih =>
    intro r h
    unfold waitLoop at h
    by_cases ht : tk.time < deadline
    · simp only [ht, if_true] at h
      cases hf : tk.fetch with
      | some r' =>
        rw [hf] at h
        cases hfin : r'.is_finished with
        | true =>
          simp only [hfin, if_true] at h
          have : r' = r := by
            have := h
            simp at this
            exact this
          subst this
          exact ⟨tk, List.mem_cons_self tk rest, ht, hf, hfin⟩
        | false =>
          simp only [hfin, Bool.false_eq_true, if_false] at h
          obtain ⟨tk', htk', hcond⟩ := ih r h
          exact ⟨tk', List.mem_cons_of_mem tk htk', hcond⟩
      | none =>
        rw [hf] at h
        obtain ⟨tk', htk', hcond⟩ := ih r h
        exact ⟨tk', List.mem_cons_of_mem tk htk', hcond⟩
    · simp [ht] at h

theorem waitLoop_timeout_sound (deadline : Int) :
    ∀ ticks : List WaitTick,
      (waitLoop deadline ticks).outcome = some .runTimeout →
      ∃ tk ∈ ticks, deadline ≤ tk.time := by
  intro ticks
  induction ticks with
  | nil => intro h; simp [waitLoop] at h
  | cons tk rest ih =>
    intro h
    unfold waitLoop at h
    by_cases ht : tk.time < deadline
    · simp only [ht, if_true] at h
      cases hf : tk.fetch with
      | some r' =>
        rw [hf] at h
        cases hfin : r'.is_finished with
        | true => simp [hfin] at h
        | false =>
          simp only [hfin, Bool.false_eq_true, if_false] at h
          obtain ⟨tk', htk', hcond⟩ := ih h
          exact ⟨tk', List.mem_cons_of_mem tk htk', hcond⟩
      | none =>
        rw [hf] at h
        obtain ⟨tk', htk', hcond⟩ := ih h
        exact ⟨tk', List.mem_cons_of_mem tk htk', hcond⟩
    · exact ⟨tk, List.mem_cons_self tk rest, not_lt.mp ht⟩

theorem waitLoop_timeout_of_never_finished (deadline : Int) :
    ∀ ticks : List WaitTick,
      (∀ tk ∈ ticks, ∀ r, tk.fetch = some r → r.is_finished = false) →
      (∃ tk ∈ ticks, deadline ≤ tk.time) →
      (waitLoop deadline ticks).outcome = some .runTimeout := by
  intro ticks
  induction ticks with
  | nil =>
    intro _ hex
    obtain ⟨tk, htk, _⟩ := hex
    exact absurd htk (List.not_mem_nil tk)
  | cons tk rest ih =>
    intro hno hex
    unfold waitLoop
    by_cases ht : tk.time < deadline
    · simp only [ht, if_true]
      have htail : (waitLoop deadline rest).outcome = some .runTimeout := by
        apply ih
        · intro tk' htk' r hr
          exact hno tk' (List.mem_cons_of_mem tk htk') r hr
        · obtain ⟨tk', htk', hdt⟩ := hex
          rcases List.mem_cons.mp htk' with htk' | htk'
          · exact absurd hdt (by rw [htk']; exact not_le.mpr ht)
          · exact ⟨tk', htk', hdt⟩
      cases hf : tk.fetch with
      | some r' =>
        have hfin := hno tk (List.mem_cons_self tk rest) r' hf
        simp [hfin, htail]
      | none => simp [htail]
    · simp [ht]

/-- C9: the Waiter returns a run exactly when some tick before the
deadline fetched it and it was finished — a successful finished fetch
before the deadline returns immediately, and any returned run was so
fetched; a failed fetch (or an unfinished run) changes no loop state:
the iteration is simply passed over and the loop continues on the rest of
the trace; a tick whose clock has reached `entry + run_timeout_seconds`
raises the run-timeout error at once, the run-timeout exit happens only
when some tick's clock reached the deadline, and when no tick ever fetches
a finished run and the clock reaches the deadline the run-timeout exit is
certain. -/
theorem wait_for_run_characterization :
    ∀ (entry_time run_timeout_seconds : Int) (ticks rest : List WaitTick)
      (tk : WaitTick) (r : WorkflowRun),
      ((wait_for_run entry_time run_timeout_seconds ticks).outcome
          = some (.finished r) →
        ∃ tk' ∈ ticks, tk'.time < entry_time + run_timeout_seconds
          ∧ tk'.fetch = some r ∧ r.is_finished = true)
      ∧ (tk.time < entry_time + run_timeout_seconds →
          tk.fetch = some r → r.is_finished = true →
          wait_for_run entry_time run_timeout_seconds (tk :: rest)
            = ⟨some (.finished r), 1⟩)
      ∧ (tk.time < entry_time + run_timeout_seconds →
          (tk.fetch = none ∨ (tk.fetch = some r ∧ r.is_finished = false)) →
          (wait_for_run entry_time run_timeout_seconds (tk :: rest)).outcome
            = (wait_for_run entry_time run_timeout_seconds rest).outcome)
      ∧ (entry_time + run_timeout_seconds ≤ tk.time →
          wait_for_run entry_time run_timeout_seconds (tk :: rest)
            = ⟨some .runTimeout, 0⟩)
      ∧ ((wait_for_run entry_time run_timeout_seconds ticks).outcome
            = some .runTimeout →
          ∃ tk' ∈ ticks, entry_time + run_timeout_seconds ≤ tk'.time)
      ∧ ((∀ tk' ∈ ticks, ∀ r', tk'.fetch = some r' → r'.is_finished = false) →
          (∃ tk' ∈ ticks, entry_time + run_timeout_seconds ≤ tk'.time) →
          (wait_for_run entry_time run_timeout_seconds ticks).outcome
            = some .runTimeout) := by
  intro t0 rt ticks rest tk r
  refine ⟨waitLoop_finished_sound _ ticks r, ?_, ?_, ?_,
    waitLoop_timeout_sound _ ticks, waitLoop_timeout_of_never_finished _ ticks⟩
  · intro ht hf hfin
    unfold wait_for_run waitLoop
    simp [ht, hf, hfin]
  · intro ht hor
    show (waitLoop (t0 + rt) (tk :: rest)).outcome
      = (waitLoop (t0 + rt) rest).outcome
    conv_lhs => unfold waitLoop
    rcases hor with hf | ⟨hf, hfin⟩
    · simp [ht, hf]
    · simp [ht, hf, hfin]
  · intro ht
    unfold wait_for_run waitLoop
    simp [not_lt.mpr ht]

/-!
Verdict Reporter: `DispatchContext.on_run_finished` and
`DispatchContext._get_failed_steps` (`src/main.py` lines 73-109).
-/

/-- The formatted failed-step line of `_get_failed_steps`:
`"\n- \x7bstep.name\x7d (status: \x7bstep.status\x7d, conclusion: \x7bstep.conclusion\x7d)"`. -/
def stepLine (s : WorkflowRunStep) : String :=
  "\n- " ++ s.name ++ " (status: " ++ s.status.toStr ++ ", conclusion: "
    ++ pyStrConclusion s.conclusion ++ ")"

/-- `_get_failed_steps` given the jobs the fetch returned: the literal
`" Unknown"` on an empty listing, otherwise the accumulated lines of
failed steps inside failed jobs. -/
def get_failed_steps (jobs : List WorkflowRunJob) : String :=
  if jobs.isEmpty then " Unknown"
  else
    jobs.foldl (fun acc j =>
      if !j.is_failed then acc
      else j.steps.foldl (fun acc2 s =>
        if !s.is_failed then acc2 else acc2 ++ stepLine s) acc) ""

/-- The error taxonomy: the four ways the run can fail, one per raise site
of `src/main.py` (dispatch rejected, search timed out, run timed out, run
finished unsuccessfully). -/
inductive RunError
  | dispatchFailed (msg : String)
  | searchTimeout (msg : String)
  | runTimeout (msg : String)
  | runFailed (msg : String)
deriving DecidableEq, Repr

/-- The message of the exception raised for an unsuccessful run. -/
def runFailedMsg (run : WorkflowRun) (failed_steps : String) : String :=
  "Workflow run failed:\n  ID: " ++ toString run.id ++ "\n  URL: "
    ++ run.html_url ++ "\n  Status: " ++ run.status.toStr
    ++ "\n  Conclusion: " ++ pyStrConclusion run.conclusion
    ++ "\n  Failed steps:" ++ failed_steps

/-- What `on_run_finished` produces: success or the run-failed error, the
summary lines written, and how many job-listing calls it made. -/
structure VerdictRes where
  result : Except RunError Unit
  summaries : List String
  jobsCalls : Nat
deriving Repr

/-- `DispatchContext.on_run_finished`: success verdict for a successful
run with no further remote calls; otherwise one job-listing fetch, the
failed-step report, and the run-failed exception. -/
def on_run_finished (do_summary : Bool) (run : WorkflowRun)
    (jobs : List WorkflowRunJob) : VerdictRes :=
  if run.is_successful then
    ⟨.ok (), if do_summary then ["✅ Run finished successfully"] else [], 0⟩
  else
    let failed_steps := get_failed_steps jobs
    ⟨.error (.runFailed (runFailedMsg run failed_steps)),
     if do_summary then ["❌ Run failed\nFailed steps:" ++ failed_steps] else [],
     1⟩

/-- Modelled from the spec's words for C6: one formatted line per failed
step within a failed job, in job order then step order. -/
def failedStepLines (jobs : List WorkflowRunJob) : List String :=
  (jobs.filter (fun j => j.is_failed)).flatMap
    (fun j => (j.steps.filter (fun s => s.is_failed)).map stepLine)

theorem str_foldl_append :
    ∀ (l : List String) (s : String),
      l.foldl (· ++ ·) s = s ++ String.join l := by
  intro l
  induction l with
  | nil => intro s; exact (String.append_empty s).symm
  | cons a rest ih =>
    intro s
    have h1 : String.join (a :: rest) = a ++ String.join rest := by
      show (a :: rest).foldl (· ++ ·) "" = a ++ String.join rest
      rw [List.foldl_cons, ih]
      simp [String.empty_append]
    rw [List.foldl_cons, ih, h1, String.append_assoc]

theorem inner_steps_foldl (steps : List WorkflowRunStep) :
    ∀ acc : String,
      steps.foldl (fun acc2 s =>
          if !s.is_failed then acc2 else acc2 ++ stepLine s) acc
        = acc ++ String.join ((steps.filter (fun s => s.is_failed)).map stepLine) := by
  induction steps with
  | nil => intro acc; exact (String.append_empty acc).symm
  | cons s rest ih =>
    intro acc
    rw [List.foldl_cons]
    cases hs : s.is_failed with
    | true =>
      simp only [hs, Bool.not_true, Bool.false_eq_true, if_false]
      rw [ih]
      simp only [List.filter_cons, hs, if_true, List.map_cons]
      have hjoin : String.join (stepLine s ::
          (rest.filter (fun s => s.is_failed)).map stepLine)
          = stepLine s ++ String.join ((rest.filter (fun s => s.is_failed)).map stepLine) := by
        show (stepLine s :: _).foldl (· ++ ·) "" = _
        rw [List.foldl_cons, str_foldl_append]
        simp [String.empty_append]
      rw [hjoin, String.append_assoc]
    | false =>
      simp only [hs, Bool.not_false, if_true]
      rw [ih]
      simp [List.filter_cons, hs]

theorem str_join_append (l₁ l₂ : List String) :
    String.join (l₁ ++ l₂) = String.join l₁ ++ String.join l₂ := by
  show (l₁ ++ l₂).foldl (· ++ ·) "" = _
  rw [List.foldl_append, str_foldl_append]
  rfl

theorem outer_jobs_foldl (jobs : List WorkflowRunJob) :
    ∀ acc : String,
      jobs.foldl (fun acc j =>
          if !j.is_failed then acc
          else j.steps.foldl (fun acc2 s =>
            if !s.is_failed then acc2 else acc2 ++ stepLine s) acc) acc
        = acc ++ String.join (failedStepLines jobs) := by
  induction jobs with
  | nil => intro acc; exact (String.append_empty acc).symm
  | cons j rest ih =>
    intro acc
    rw [List.foldl_cons]
    cases hj : j.is_failed with
    | true =>
      simp only [hj, Bool.not_true, Bool.false_eq_true, if_false]
      rw [inner_steps_foldl, ih]
      unfold failedStepLines
      simp only [List.filter_cons, hj, if_true, List.flatMap_cons]
      rw [str_join_append, String.append_assoc]
    | false =>
      simp only [hj, Bool.not_false, if_true]
      rw [ih]
      unfold failedStepLines
      simp [List.filter_cons, hj]

/-- C6: for a successful run `on_run_finished` produces the success
verdict with zero job-listing calls; for an unsuccessful run it issues
exactly one job-listing call and raises the run-failed error carrying the
failed-step report; the report on an empty listing is the literal
`" Unknown"` placeholder; and on a nonempty listing it is exactly the
concatenation of one formatted line per failed step within a failed job,
in job order then step order (steps inside non-failed jobs are omitted). -/
theorem on_run_finished_verdict :
    ∀ (do_summary : Bool) (run : WorkflowRun) (jobs : List WorkflowRunJob),
      (run.is_successful = true →
        (on_run_finished do_summary run jobs).result = .ok ()
        ∧ (on_run_finished do_summary run jobs).jobsCalls = 0)
      ∧ (run.is_successful = false →
        (on_run_finished do_summary run jobs).result
            = .error (.runFailed (runFailedMsg run (get_failed_steps jobs)))
        ∧ (on_run_finished do_summary run jobs).jobsCalls = 1)
      ∧ get_failed_steps [] = " Unknown"
      ∧ (jobs ≠ [] →
          get_failed_steps jobs = String.join (failedStepLines jobs)) := by
  intro d run jobs
  refine ⟨?_, ?_, rfl, ?_⟩
  · intro hs
    unfold on_run_finished
    rw [hs]
    exact ⟨rfl, rfl⟩
  · intro hs
    unfold on_run_finished
    rw [hs]
    simp only [Bool.false_eq_true, if_false]
    refine ⟨?_, ?_⟩ <;> first | rfl | trivial
  · intro hne
    unfold get_failed_steps
    rw [if_neg (by simpa [List.isEmpty_iff] using hne)]
    rw [outer_jobs_foldl]
    exact (String.empty_append _)

/-!
Orchestrator: `main` (`src/main.py` lines 112-132) over `DispatchContext`.
The environment supplies everything the remote provider decides: whether
the dispatch was accepted, the search-phase poll trace, the wait-phase tick
trace, and the jobs returned by the verdict fetch.  `runMain` records the
process outcome, the key/value outputs, the summary lines, and how many
listing / job-fetch / run-fetch calls each phase issued.
-/

/-- The `DispatchContext` pydantic model (`src/main.py` lines 13-22). -/
structure DispatchContext where
  owner : String
  repo : String
  ref : String
  workflow : String
  workflow_inputs : List (String × String)
  run_timeout_seconds : Int
  start_timeout_seconds : Int
  poll_interval : Int
  do_summary : Bool

/-- The provider-side behaviour one invocation of `main` observes. -/
structure MainEnv where
  dispatchOk : Bool
  startTime : Int
  polls : List Poll
  waitStart : Int
  waitTicks : List WaitTick
  verdictJobs : List WorkflowRunJob

/-- Everything one invocation of `main` produces. -/
structure MainRes where
  result : Option (Except RunError Unit)
  outputs : List (String × String)
  summaries : List String
  listCalls : Nat
  jobsCalls : Nat
  getCalls : Nat

/-- Message of the dispatch-failure exception (`src/main.py` lines 116-119). -/
def dispatchFailedMsg (ctx : DispatchContext) : String :=
  "Failed to dispatch workflow\nMake sure your token has actions:write permission for "
    ++ ctx.owner ++ "/" ++ ctx.repo

/-- Message of the search-timeout exception (`src/main.py` lines 54-60; the
example lines are Python raw strings, so they end in a literal backslash-n). -/
def searchTimeoutMsg : String :=
  "Timed out trying to find the workflow run\n"
    ++ "Make sure the workflow sets distinct_id as a step name, e.g.:\n"
    ++ "    - name: Echo distinct ID $\x7b\x7b inputs.distinct_id \x7d\x7d\\n"
    ++ "      run: echo $\x7b\x7b inputs.distinct_id \x7d\x7d\\n"
    ++ "Place this step as early in the workflow as possible."

/-- `json.dumps(m, indent=2)` for a string-valued map (the only shape the
model carries; escaping inside keys/values is not modelled). -/
def jsonDumpsIndent2 (m : List (String × String)) : String :=
  match m with
  | [] => "\x7b\x7d"
  | _ =>
    "\x7b\n"
      ++ String.intercalate ",\n"
          (m.map (fun p => "  \"" ++ p.1 ++ "\": \"" ++ p.2 ++ "\""))
      ++ "\n\x7d"

/-- The dispatch-details summary written after the run is identified
(`src/main.py` lines 124-129). -/
def dispatchSummaryText (ctx : DispatchContext) (run : WorkflowRun) : String :=
  "Dispatched run: [" ++ toString run.id ++ "](" ++ run.html_url ++ ")\n"
    ++ "Repository: " ++ ctx.owner ++ "/" ++ ctx.repo ++ "@" ++ ctx.ref ++ "\n"
    ++ "Workflow: [" ++ ctx.workflow ++ "](https://github.com/" ++ ctx.owner
    ++ "/" ++ ctx.repo ++ "/blob/" ++ ctx.ref ++ "/.github/workflows/"
    ++ ctx.workflow ++ ")\n"
    ++ "Inputs:\n```\n" ++ jsonDumpsIndent2 ctx.workflow_inputs ++ "\n```"

/-- `main`: dispatch (fail fast on rejection), find the run, emit its id
and url, write the dispatch summary if enabled, wait unless the run is
already finished, then build the verdict. -/
def runMain (ctx : DispatchContext) (env : MainEnv) (distinct_id : String) :
    MainRes :=
  let _sent := adjusted_inputs distinct_id ctx.workflow_inputs
  if !env.dispatchOk then
    ⟨some (.error (.dispatchFailed (dispatchFailedMsg ctx))), [], [], 0, 0, 0⟩
  else
    let fr := find_run env.startTime ctx.start_timeout_seconds distinct_id env.polls
    let fList := fr.iters.length
    let fJobs := (fr.iters.map (fun it => it.fetched.length)).sum
    match fr.outcome with
    | none => ⟨none, [], [], fList, fJobs, 0⟩
    | some .searchTimeout =>
      ⟨some (.error (.searchTimeout searchTimeoutMsg)), [], [], fList, fJobs, 0⟩
    | some (.found run) =>
      let outs := [("run_id", toString run.id), ("run_url", run.html_url)]
      let dispSumm := if ctx.do_summary then [dispatchSummaryText ctx run] else []
      if run.is_finished then
        let v := on_run_finished ctx.do_summary run env.verdictJobs
        ⟨some v.result, outs, dispSumm ++ v.summaries, fList, fJobs + v.jobsCalls, 0⟩
      else
        let w := wait_for_run env.waitStart ctx.run_timeout_seconds env.waitTicks
        match w.outcome with
        | none => ⟨none, outs, dispSumm, fList, fJobs, w.calls⟩
        | some .runTimeout =>
          ⟨some (.error (.runTimeout "Timed out waiting for workflow run")), outs,
           dispSumm ++ (if ctx.do_summary then ["❌ Run timed out"] else []),
           fList, fJobs, w.calls⟩
        | some (.finished r2) =>
          let v := on_run_finished ctx.do_summary r2 env.verdictJobs
          ⟨some v.result, outs, dispSumm ++ v.summaries, fList, fJobs + v.jobsCalls,
           w.calls⟩

/-- C7: when the trigger is rejected, `main` fails with the dispatch-failed
error and issues zero listing calls, zero job fetches and zero run fetches
(the environment's `dispatchOk` field is `false` by construction, so no
hypothesis is needed). -/
theorem main_dispatch_failed_short_circuit :
    ∀ (ctx : DispatchContext) (startTime : Int) (polls : List Poll)
      (waitStart : Int) (ticks : List WaitTick)
      (jobs : List WorkflowRunJob) (distinct_id : String),
      runMain ctx ⟨false, startTime, polls, waitStart, ticks, jobs⟩ distinct_id
        = ⟨some (.error (.dispatchFailed (dispatchFailedMsg ctx))),
           [], [], 0, 0, 0⟩ := by
  intro ctx startTime polls waitStart ticks jobs d
  rfl

theorem on_run_finished_result_indep (run : WorkflowRun)
    (jobs : List WorkflowRunJob) (d₁ d₂ : Bool) :
    (on_run_finished d₁ run jobs).result = (on_run_finished d₂ run jobs).result := by
  cases h : run.is_successful <;> simp [on_run_finished, h]

theorem on_run_finished_success_summary (run : WorkflowRun)
    (jobs : List WorkflowRunJob)
    (h : (on_run_finished true run jobs).result = .ok ()) :
    "✅ Run finished successfully" ∈ (on_run_finished true run jobs).summaries := by
  cases hs : run.is_successful with
  | true => simp [on_run_finished, hs]
  | false => simp [on_run_finished, hs] at h

/-- C5: enabling the summary channel never changes the outcome — for every
context and environment the result with `do_summary = true` equals the
result with `do_summary = false`; with summaries disabled nothing is
written to the summary channel; on the success verdict the success banner
is written to the summary channel; and every failure outcome is one of the
four taxonomy kinds (dispatch-failed, search-timeout, run-timeout,
run-failed). -/
theorem summaries_do_not_change_outcome :
    ∀ (ctx : DispatchContext) (env : MainEnv) (distinct_id : String),
      (runMain { ctx with do_summary := true } env distinct_id).result
        = (runMain { ctx with do_summary := false } env distinct_id).result
      ∧ (runMain { ctx with do_summary := false } env distinct_id).summaries = []
      ∧ ((runMain { ctx with do_summary := true } env distinct_id).result
            = some (.ok ()) →
          "✅ Run finished successfully"
            ∈ (runMain { ctx with do_summary := true } env distinct_id).summaries)
      ∧ (∀ e, (runMain ctx env distinct_id).result = some (.error e) →
          (∃ m, e = .dispatchFailed m) ∨ (∃ m, e = .searchTimeout m)
          ∨ (∃ m, e = .runTimeout m) ∨ (∃ m, e = .runFailed m)) := by
  intro ctx env d
  refine ⟨?_, ?_, ?_, ?_⟩
  · unfold runMain
    cases hd : env.dispatchOk with
    | false => rfl
    | true =>
      simp only [Bool.not_true, Bool.false_eq_true, if_false]
      cases ho : (find_run env.startTime ctx.start_timeout_seconds d env.polls).outcome with
      | none => rfl
      | some oc =>
        cases oc with
        | searchTimeout => simp [ho]
        | found run =>
          simp only [ho]
          cases hf : run.is_finished with
          | true =>
            simp only [hf, if_true]
            exact congrArg some (on_run_finished_result_indep run env.verdictJobs true false)
          | false =>
            simp only [hf, Bool.false_eq_true, if_false]
            cases hw : (wait_for_run env.waitStart ctx.run_timeout_seconds env.waitTicks).outcome with
            | none => rfl
            | some wc =>
              cases wc with
              | runTimeout => simp [hw]
              | finished r2 =>
                simp only [hw]
                exact congrArg some (on_run_finished_result_indep r2 env.verdictJobs true false)
  · unfold runMain
    cases hd : env.dispatchOk with
    | false => rfl
    | true =>
      simp only [Bool.not_true, Bool.false_eq_true, if_false]
      cases ho : (find_run env.startTime ctx.start_timeout_seconds d env.polls).outcome with
      | none => rfl
      | some oc =>
        cases oc with
        | searchTimeout => simp [ho]
        | found run =>
          simp only [ho]
          cases hf : run.is_finished with
          | true =>
            simp only [hf, if_true]
            cases hs : run.is_successful <;> simp [on_run_finished, hs]
          | false =>
            simp only [hf, Bool.false_eq_true, if_false]
            cases hw : (wait_for_run env.waitStart ctx.run_timeout_seconds env.waitTicks).outcome with
            | none => rfl
            | some wc =>
              cases wc with
              | runTimeout => simp [hw]
              | finished r2 =>
                simp only [hw]
                cases hs : r2.is_successful <;> simp [on_run_finished, hs]
  · intro hok
    unfold runMain at hok ⊢
    cases hd : env.dispatchOk with
    | false => rw [hd] at hok; simp at hok
    | true =>
      simp only [hd, Bool.not_true, Bool.false_eq_true, if_false] at hok ⊢
      cases ho : (find_run env.startTime ctx.start_timeout_seconds d env.polls).outcome with
      | none => simp [ho] at hok
      | some oc =>
        cases oc with
        | searchTimeout => simp [ho] at hok
        | found run =>
          simp only [ho] at hok ⊢
          cases hf : run.is_finished with
          | true =>
            simp only [hf, if_true] at hok ⊢
            simp only [Option.some.injEq] at hok
            have := on_run_finished_success_summary run env.verdictJobs hok
            exact List.mem_append.mpr (Or.inr this)
          | false =>
            simp only [hf, Bool.false_eq_true, if_false] at hok ⊢
            cases hw : (wait_for_run env.waitStart ctx.run_timeout_seconds env.waitTicks).outcome with
            | none => simp [hw] at hok
            | some wc =>
              cases wc with
              | runTimeout => simp [hw] at hok
              | finished r2 =>
                simp only [hw] at hok ⊢
                simp only [Option.some.injEq] at hok
                have := on_run_finished_success_summary r2 env.verdictJobs hok
                exact List.mem_append.mpr (Or.inr this)
  · intro e he
    cases e with
    | dispatchFailed m => exact Or.inl ⟨m, rfl⟩
    | searchTimeout m => exact Or.inr (Or.inl ⟨m, rfl⟩)
    | runTimeout m => exact Or.inr (Or.inr (Or.inl ⟨m, rfl⟩))
    | runFailed m => exact Or.inr (Or.inr (Or.inr ⟨m, rfl⟩))

/-!
Provider Client validation (`src/github.py`).  The pydantic models declare
`status: CheckStatus` and `conclusion: CheckConclusion | None` over closed
`Literal` types.  `model_validate` raises on a status or conclusion string
outside those sets; the raise happens inside the `try` block of each
operation, so the whole call takes the `except` path: `list_workflow_runs`
and `list_workflow_run_jobs` return `[]`, `get_workflow_run` returns
`None`.  Raw payloads carry the pre-validation strings.
-/

/-- The nine CheckStatus literal strings. -/
def checkStatusStrings : List String :=
  ["completed", "expected", "failure", "in_progress", "pending", "queued",
   "requested", "startup_failure", "waiting"]

/-- The eight CheckConclusion literal strings. -/
def checkConclusionStrings : List String :=
  ["action_required", "cancelled", "failure", "neutral", "skipped", "stale",
   "success", "timed_out"]

/-- Validation of a status string against the closed `CheckStatus` set. -/
def parseCheckStatus (s : String) : Option CheckStatus :=
  if s = "completed" then some .completed
  else if s = "expected" then some .expected
  else if s = "failure" then some .failure
  else if s = "in_progress" then some .in_progress
  else if s = "pending" then some .pending
  else if s = "queued" then some .queued
  else if s = "requested" then some .requested
  else if s = "startup_failure" then some .startup_failure
  else if s = "waiting" then some .waiting
  else none

/-- Validation of a conclusion string against the closed `CheckConclusion`
set. -/
def parseCheckConclusion (s : String) : Option CheckConclusion :=
  if s = "action_required" then some .action_required
  else if s = "cancelled" then some .cancelled
  else if s = "failure" then some .failure
  else if s = "neutral" then some .neutral
  else if s = "skipped" then some .skipped
  else if s = "stale" then some .stale
  else if s = "success" then some .success
  else if s = "timed_out" then some .timed_out
  else none

/-- Validation of the optional conclusion field: absent (or JSON null) is
valid and maps to `none`; a present string must be in the closed set. -/
def parseConclusionField : Option String → Option (Option CheckConclusion)
  | none => some none
  | some s => (parseCheckConclusion s).map some

/-- A workflow-run payload before validation. -/
structure RawRun where
  id : Int
  status : String
  conclusion : Option String
  html_url : String
deriving DecidableEq, Repr

/-- A step payload before validation. -/
structure RawStep where
  name : String
  status : String
  conclusion : Option String
deriving DecidableEq, Repr

/-- A job payload before validation. -/
structure RawJob where
  name : String
  status : String
  conclusion : Option String
  steps : List RawStep
deriving DecidableEq, Repr

/-- `WorkflowRun.model_validate`: all fields must validate. -/
def validateRun (r : RawRun) : Option WorkflowRun :=
  match parseCheckStatus r.status, parseConclusionField r.conclusion with
  | some st, some c => some ⟨r.id, st, c, r.html_url⟩
  | _, _ => none

/-- `WorkflowRunStep.model_validate`. -/
def validateStep (s : RawStep) : Option WorkflowRunStep :=
  match parseCheckStatus s.status, parseConclusionField s.conclusion with
  | some st, some c => some ⟨s.name, st, c⟩
  | _, _ => none

/-- Sequential validation of a list: the comprehension raises on the first
invalid element, failing the whole list. -/
def allValid {α β : Type} (f : α → Option β) : List α → Option (List β)
  | [] => some []
  | a :: rest =>
    match f a, allValid f rest with
    | some b, some bs => some (b :: bs)
    | _, _ => none

/-- `WorkflowRunJob.model_validate`: the job's own fields and every nested
step must validate. -/
def validateJob (j : RawJob) : Option WorkflowRunJob :=
  match parseCheckStatus j.status, parseConclusionField j.conclusion,
      allValid validateStep j.steps with
  | some st, some c, some steps => some ⟨j.name, st, c, steps⟩
  | _, _, _ => none

/-- `list_workflow_runs` on a listing payload: a validation failure inside
the `try` block yields the `except` path's empty list. -/
def list_workflow_runs (raw : List RawRun) : List WorkflowRun :=
  match allValid validateRun raw with
  | some runs => runs
  | none => []

/-- `get_workflow_run` on a fetched payload: a validation failure yields
`None`. -/
def get_workflow_run (raw : RawRun) : Option WorkflowRun :=
  validateRun raw

/-- `list_workflow_run_jobs` on a jobs payload. -/
def list_workflow_run_jobs (raw : List RawJob) : List WorkflowRunJob :=
  match allValid validateJob raw with
  | some jobs => jobs
  | none => []

theorem allValid_eq_none_of_mem {α β : Type} (f : α → Option β) :
    ∀ (l : List α) (a : α), a ∈ l → f a = none → allValid f l = none := by
  intro l
  induction l with
  | nil => intro a ha; exact absurd ha (List.not_mem_nil a)
  | cons x rest ih =>
    intro a ha hf
    unfold allValid
    rcases List.mem_cons.mp ha with ha | ha
    · rw [ha] at hf
      rw [hf]
    · rw [ih a ha hf]
      cases f x <;> rfl

/-- C10: status and conclusion strings are validated against the closed
literal sets (the parser succeeds exactly on a string of the set); a
fetched run with a status outside `CheckStatus`, or a present conclusion
outside `CheckConclusion`, fails validation, so `get_workflow_run` returns
absent; one invalid run in a listing payload fails the whole call, so
`list_workflow_runs` returns the empty sequence; the same holds for steps
and jobs, where an invalid nested step already invalidates its job and one
invalid job empties `list_workflow_run_jobs`. -/
theorem provider_rejects_unknown_enum_values :
    ∀ (s : String) (r : RawRun) (raw : List RawRun)
      (j : RawJob) (st : RawStep) (rawJobs : List RawJob),
      ((parseCheckStatus s).isSome = true ↔ s ∈ checkStatusStrings)
      ∧ ((parseCheckConclusion s).isSome = true ↔ s ∈ checkConclusionStrings)
      ∧ (get_workflow_run r = none ↔
          parseCheckStatus r.status = none
          ∨ ∃ cs, r.conclusion = some cs ∧ parseCheckConclusion cs = none)
      ∧ (r ∈ raw → validateRun r = none → list_workflow_runs raw = [])
      ∧ (validateStep st = none ↔
          parseCheckStatus st.status = none
          ∨ ∃ cs, st.conclusion = some cs ∧ parseCheckConclusion cs = none)
      ∧ (st ∈ j.steps → validateStep st = none → validateJob j = none)
      ∧ (j ∈ rawJobs → validateJob j = none → list_workflow_run_jobs rawJobs = []) := by
  intro s r raw j st rawJobs
  refine ⟨?_, ?_, ?_, ?_, ?_, ?_, ?_⟩
  · unfold parseCheckStatus checkStatusStrings
    split_ifs with h1 h2 h3 h4 h5 h6 h7 h8 h9 <;> simp [*]
  · unfold parseCheckConclusion checkConclusionStrings
    split_ifs with h1 h2 h3 h4 h5 h6 h7 h8 <;> simp [*]
  · cases hst : parseCheckStatus r.status with
    | none => simp [get_workflow_run, validateRun, hst]
    | some stv =>
      cases hc : r.conclusion with
      | none => simp [get_workflow_run, validateRun, parseConclusionField, hst, hc]
      | some cs =>
        cases hpc : parseCheckConclusion cs with
        | none =>
          simp [get_workflow_run, validateRun, parseConclusionField, hst, hc, hpc]
        | some cv =>
          simp [get_workflow_run, validateRun, parseConclusionField, hst, hc, hpc]
  · intro hmem hnone
    unfold list_workflow_runs
    rw [allValid_eq_none_of_mem validateRun raw r hmem hnone]
  · cases hst : parseCheckStatus st.status with
    | none => simp [validateStep, hst]
    | some stv =>
      cases hc : st.conclusion with
      | none => simp [validateStep, parseConclusionField, hst, hc]
      | some cs =>
        cases hpc : parseCheckConclusion cs with
        | none => simp [validateStep, parseConclusionField, hst, hc, hpc]
        | some cv => simp [validateStep, parseConclusionField, hst, hc, hpc]
  · intro hmem hnone
    unfold validateJob
    rw [allValid_eq_none_of_mem validateStep j.steps st hmem hnone]
    cases parseCheckStatus j.status <;> cases parseConclusionField j.conclusion <;> rfl
  · intro hmem hnone
    unfold list_workflow_run_jobs
    rw [allValid_eq_none_of_mem validateJob rawJobs j hmem hnone]
